import Mathlib

/-!
Verification development for the topolograph-sdk collection pipeline.

The Lean definitions below are a shallow embedding of the Python sources
`topolograph/collector/commands.py`, `topolograph/collector/inventory.py` and
`topolograph/collector/collector.py`.  Python dictionaries are modelled as
association lists in insertion order, Python exceptions as `Except` values,
and the external SSH execution backend as a function from host name and
command string to an outcome.  String values of inventory records are
modelled as string scalars, which covers every behaviour the statements
below are about.
-/

deriving instance DecidableEq for Except

/-- Association-list lookup, the model of a Python dictionary read `d[k]` /
`d.get(k)`: the first binding of the key wins. -/
def alookup {α : Type} : List (String × α) → String → Option α
  | [], _ => none
  | (k, v) :: rest, key => if k = key then some v else alookup rest key

/-- Model of the Python string-join `sep.join(parts)`. -/
def joinSep (sep : String) : List String → String
  | [] => ""
  | [s] => s
  | s :: rest => s ++ sep ++ joinSep sep rest

/-- Model of Python `str.lower()`.  The sources only ever lower-case ASCII
vendor and protocol names, so the ASCII `Char.toLower` is used on the
character list of the string. -/
def pyLower (s : String) : String := String.mk (s.data.map Char.toLower)

/-- Character-list version of the startswith test. -/
def startsWithChars : List Char → List Char → Bool
  | _, [] => true
  | [], _ :: _ => false
  | c :: cs, p :: ps => c = p && startsWithChars cs ps

/-- Model of Python `s.startswith(pre)`. -/
def pyStartsWith (s pre : String) : Bool := startsWithChars s.data pre.data

/-- Model of the Python `repr` of a list of strings, as produced by an
f-string interpolation of `list(...)`: `['a', 'b']`. -/
def pyStrList (l : List String) : String :=
  "[" ++ joinSep ", " (l.map (fun s => "'" ++ s ++ "'")) ++ "]"

/-- Ordered concatenation of the lists produced for each element, used to
model loops that extend an accumulator list per iteration. -/
def concatMap {α β : Type} (f : α → List β) : List α → List β
  | [] => []
  | a :: l => f a ++ concatMap f l

/-- Model of a Python dictionary assignment `d[k] = v`: if the key is
present its value is updated in place (keeping its original position),
otherwise the binding is appended at the end. -/
def dinsert {α : Type} (d : List (String × α)) (k : String) (v : α) : List (String × α) :=
  if d.any (fun p => p.1 = k) then d.map (fun p => if p.1 = k then (k, v) else p)
  else d ++ [(k, v)]

/-- First occurrence of each element, in order: the key sequence a Python
dictionary ends up with after inserting the elements of `l` one by one. -/
def firstOccur (l : List String) : List String :=
  l.foldl (fun acc c => if c ∈ acc then acc else acc ++ [c]) []

/-- Insertion step of a stable ascending insertion sort. -/
def insertSorted {α : Type} (le : α → α → Bool) (x : α) : List α → List α
  | [] => [x]
  | y :: ys => if le x y then x :: y :: ys else y :: insertSorted le x ys

/-- Stable ascending insertion sort by a boolean comparison. -/
def sortByB {α : Type} (le : α → α → Bool) : List α → List α
  | [] => []
  | x :: xs => insertSorted le x (sortByB le xs)

/-- Code-point lexicographic comparison of character lists, the order Python
uses when sorting strings. -/
def charListLE : List Char → List Char → Bool
  | [], _ => true
  | _ :: _, [] => false
  | a :: as, b :: bs =>
    if a.toNat < b.toNat then true
    else if b.toNat < a.toNat then false
    else charListLE as bs

/-! ### commands.py -/

/-- The static command registry `COMMAND_REGISTRY` of `commands.py`,
protocol to vendor to ordered command list, transcribed verbatim. -/
def COMMAND_REGISTRY : List (String × List (String × List String)) :=
  [("ospf",
    [("cisco",
      ["show ip ospf database router",
       "show ip ospf database network",
       "show ip ospf database external"]),
     ("juniper",
      ["show ospf database router extensive | no-more",
       "show ospf database network extensive | no-more",
       "show ospf database external extensive | no-more"]),
     ("frr",
      ["show ip ospf database router",
       "show ip ospf database network",
       "show ip ospf database external"]),
     ("quagga",
      ["show ip ospf database router",
       "show ip ospf database network",
       "show ip ospf database external"]),
     ("arista",
      ["show ip ospf database router detail",
       "show ip ospf database network detail",
       "show ip ospf database external detail"]),
     ("nokia",
      ["show router ospf database type router detail",
       "show router ospf database type network detail",
       "show router ospf database type external detail"]),
     ("cisco_nxos",
      ["show ip ospf database router detail",
       "show ip ospf database network detail",
       "show ip ospf database external detail"]),
     ("fortinet",
      ["get router info ospf database router lsa",
       "get router info ospf database network lsa",
       "get router info ospf database external lsa"]),
     ("ruckus",
      ["show ip ospf database link-state router",
       "show ip ospf database link-state network",
       "show ip ospf database external-link-state"]),
     ("bird",
      ["show ospf state all",
       "show ospf state all",
       "show ospf state all"]),
     ("mikrotik",
      ["/routing ospf lsa print detail file=lsa.txt",
       "/routing ospf lsa print detail file=lsa.txt",
       "/routing ospf lsa print detail file=lsa.txt"]),
     ("huawei",
      ["display ospf lsdb router",
       "display ospf lsdb network",
       "display ospf lsdb ase"]),
     ("paloalto",
      ["show routing protocol ospf dumplsdb",
       "show routing protocol ospf dumplsdb",
       "show routing protocol ospf dumplsdb"]),
     ("ubiquiti",
      ["show ip ospf database router",
       "show ip ospf database network",
       "show ip ospf database external"]),
     ("allied_telesis",
      ["show ip ospf database router",
       "show ip ospf database network",
       "show ip ospf database external"]),
     ("extreme",
      ["show ospf lsdb detail lstype router",
       "show ospf lsdb detail lstype network",
       "show ospf lsdb detail lstype as-external"]),
     ("ericsson",
      ["show ospf database router detail",
       "show ospf database network detail",
       "show ospf database external detail"])]),
   ("ospfv3",
    [("arista",
      ["show ipv6 ospf database detail"])]),
   ("isis",
    [("cisco", ["show isis database detail"]),
     ("juniper", ["show isis database extensive"]),
     ("frr", ["show isis database detail"]),
     ("nokia", ["show router isis database detail"]),
     ("huawei", ["display isis lsdb verbose"])])]

/-- The two distinct `ValueError` shapes raised by `get_commands`: unknown
protocol, and unknown vendor for a known protocol (the latter carrying the
list of valid vendors for that protocol, as the Python message embeds it). -/
inductive GetCommandsError : Type
  | protocolNotFound (protocol : String)
  | vendorNotFound (vendor : String) (protocol : String) (availableVendors : List String)
deriving DecidableEq

/-- The exact message text of the raised `ValueError`, as built by the
f-strings of `get_commands` in `commands.py`. -/
def GetCommandsError.message : GetCommandsError → String
  | .protocolNotFound p => "Protocol '" ++ p ++ "' not found in command registry"
  | .vendorNotFound v p vendors =>
      "Vendor '" ++ v ++ "' not found for protocol '" ++ p ++
      "'. Available vendors: " ++ pyStrList vendors

/-- Model of `get_commands(protocol, vendor)` of `commands.py`: lower-case
both arguments, look the protocol up, then the vendor, raising the two
distinct errors on the two misses; on success the registered command list is
returned (the `.copy()` aliasing behaviour is modelled separately by
`get_commands_st` below). -/
def get_commands (protocol vendor : String) : Except GetCommandsError (List String) :=
  match alookup COMMAND_REGISTRY (pyLower protocol) with
  | none => .error (.protocolNotFound (pyLower protocol))
  | some vendors =>
    match alookup vendors (pyLower vendor) with
    | none => .error (.vendorNotFound (pyLower vendor) (pyLower protocol)
        (vendors.map Prod.fst))
    | some commands => .ok commands

/-- Model of `list_protocols()` of `commands.py`. -/
def list_protocols : List String := COMMAND_REGISTRY.map Prod.fst

/-- Model of `list_vendors(protocol)` of `commands.py`. -/
def list_vendors (protocol : String) : Except GetCommandsError (List String) :=
  match alookup COMMAND_REGISTRY (pyLower protocol) with
  | none => .error (.protocolNotFound (pyLower protocol))
  | some vendors => .ok (vendors.map Prod.fst)

/-! ### A store model for the list-copy behaviour of get_commands

Python lists are mutable heap objects; `COMMAND_REGISTRY[p][v].copy()`
allocates a fresh list object so that a caller mutating the returned object
cannot reach the registry entry.  To state that, list objects are modelled
as cells of a store (a list of string lists, addressed by position); the
registered lists occupy the initial cells, and each successful call
allocates a fresh cell holding a copy of the current registry cell. -/

/-- The registry flattened to (protocol, vendor) keyed cells, in the textual
order of `COMMAND_REGISTRY`. -/
def regFlat : List ((String × String) × List String) :=
  concatMap (fun pv => pv.2.map (fun vc => ((pv.1, vc.1), vc.2))) COMMAND_REGISTRY

/-- Key layout of the registry cells of the store. -/
def regKeys : List (String × String) := regFlat.map Prod.fst

/-- Position of a key in the registry layout. -/
def keyIdx : List (String × String) → String × String → Option Nat
  | [], _ => none
  | k :: rest, key => if k = key then some 0 else (keyIdx rest key).map (· + 1)

/-- Store read `s[i]` (the default is never reached by the theorems below). -/
def storeGet : List (List String) → Nat → List String
  | [], _ => []
  | c :: _, 0 => c
  | _ :: rest, n + 1 => storeGet rest n

/-- In-place mutation of the list object at a reference, the effect of a
caller mutating a returned list. -/
def storeWrite : List (List String) → Nat → List String → List (List String)
  | [], _, _ => []
  | _ :: rest, 0, v => v :: rest
  | c :: rest, n + 1, v => c :: storeWrite rest n v

/-- The store at interpreter start-up: exactly the registered lists. -/
def initStore : List (List String) := regFlat.map Prod.snd

/-- Store-passing model of `get_commands`: the same lookup and error
behaviour, but the returned value is a fresh cell (`s.length`) holding a
copy of the current contents of the registry cell, which models the final
`.copy()` of the Python source. -/
def get_commands_st (s : List (List String)) (protocol vendor : String) :
    Except GetCommandsError (List (List String) × Nat) :=
  match alookup COMMAND_REGISTRY (pyLower protocol) with
  | none => .error (.protocolNotFound (pyLower protocol))
  | some vendors =>
    match alookup vendors (pyLower vendor) with
    | none => .error (.vendorNotFound (pyLower vendor) (pyLower protocol)
        (vendors.map Prod.fst))
    | some _ =>
      match keyIdx regKeys (pyLower protocol, pyLower vendor) with
      | some i => .ok (s ++ [storeGet s i], s.length)
      | none => .error (.protocolNotFound (pyLower protocol))

/-! ### inventory.py -/

/-- Model of the Python expression `a or b` on optional strings, where
`None` and the empty string are falsy. -/
def pyOrStr (a b : Option String) : Option String :=
  match a with
  | some s => if s = "" then b else some s
  | none => b

/-- Truthiness of an optional string value. -/
def pyTruthy : Option String → Bool
  | none => false
  | some s => !(s = "")

/-- One validated inventory record, the fields `InventoryHost.__init__`
stores (the opaque nested connection-option bag is outside the modelled
value universe and no statement below concerns it). -/
structure InventoryHost : Type where
  name : String
  hostname : String
  username : Option String
  password : Option String
  vendor : String
  protocol : String
  port : String
deriving DecidableEq

/-- Model of `InventoryHost.__init__(name, data)`: reads `hostname` (or the
alias `host`) with Python `or` semantics, lower-cases `vendor` and
`protocol` (missing fields defaulting to the empty string), defaults the
port, and raises the three `ValueError`s in source order when `hostname`,
`vendor` or `protocol` is falsy. -/
def mkInventoryHost (name : String) (data : List (String × String)) :
    Except String InventoryHost :=
  let hostname := pyOrStr (alookup data "hostname") (alookup data "host")
  let vendor := pyLower ((alookup data "vendor").getD "")
  let protocol := pyLower ((alookup data "protocol").getD "")
  let port := (alookup data "port").getD "22"
  if pyTruthy hostname = false then
    .error ("Host '" ++ name ++ "' missing required 'hostname' field")
  else if vendor = "" then
    .error ("Host '" ++ name ++ "' missing required 'vendor' field")
  else if protocol = "" then
    .error ("Host '" ++ name ++ "' missing required 'protocol' field")
  else
    .ok ⟨name, hostname.getD "",
         pyOrStr (alookup data "username") (alookup data "user"),
         alookup data "password", vendor, protocol, port⟩

/-- The record-validation failure condition of `InventoryHost.__init__`, as
a boolean on the raw record. -/
def missingFieldB (data : List (String × String)) : Bool :=
  pyTruthy (pyOrStr (alookup data "hostname") (alookup data "host")) = false ||
  pyLower ((alookup data "vendor").getD "") = "" ||
  pyLower ((alookup data "protocol").getD "") = ""

/-- The message of the `ValueError` raised by `InventoryHost.__init__` on a
record that fails validation: the first failing check in source order. -/
def fieldErrorMsg (name : String) (data : List (String × String)) : String :=
  if pyTruthy (pyOrStr (alookup data "hostname") (alookup data "host")) = false then
    "Host '" ++ name ++ "' missing required 'hostname' field"
  else if pyLower ((alookup data "vendor").getD "") = "" then
    "Host '" ++ name ++ "' missing required 'vendor' field"
  else
    "Host '" ++ name ++ "' missing required 'protocol' field"

/-- The distinct failure shapes of `Inventory.__init__`: missing file
(`FileNotFoundError`), unparseable YAML (`ValueError`), a non-mapping top
level (`ValueError`), and a host record failing validation (`ValueError`
naming the host). -/
inductive InvError : Type
  | fileNotFound (msg : String)
  | invalidYaml (msg : String)
  | notDict (msg : String)
  | hostError (name : String) (msg : String)
deriving DecidableEq

/-- The parsed shape of the inventory file content: a top-level mapping of
host name to a record of string scalar fields, or any non-mapping value. -/
inductive RawYaml : Type
  | dict (entries : List (String × List (String × String)))
  | nonDict
deriving DecidableEq

/-- The host-construction loop of `Inventory.__init__`: keys starting with
`---` (YAML document separators) are skipped, every other entry is passed
to `InventoryHost.__init__`, and the first validation failure aborts the
load wrapped in an error that names the host. -/
def loadHosts : List (String × List (String × String)) →
    Except InvError (List InventoryHost)
  | [] => .ok []
  | (name, data) :: rest =>
    if pyStartsWith name "---" then loadHosts rest
    else
      match mkInventoryHost name data with
      | .error e => .error (.hostError name ("Error parsing host '" ++ name ++ "': " ++ e))
      | .ok h => (loadHosts rest).map (fun hs => h :: hs)

/-- Model of `Inventory.__init__(inventory_path)`.  The file system and the
YAML parser are external collaborators; their combined outcome is the
argument `file`: `none` when the file does not exist, `some (.error m)`
when `yaml.safe_load` raises, and `some (.ok v)` with the parsed value
otherwise. -/
def load_inventory (path : String) (file : Option (Except String RawYaml)) :
    Except InvError (List InventoryHost) :=
  match file with
  | none => .error (.fileNotFound ("Inventory file not found: " ++ path))
  | some (.error e) => .error (.invalidYaml ("Invalid YAML in inventory file: " ++ e))
  | some (.ok .nonDict) => .error (.notDict "Inventory must be a dictionary")
  | some (.ok (.dict entries)) => loadHosts entries

/-- Model of `Inventory.get_hosts(protocol, vendor)`: each given filter is
lower-cased and applied as an equality filter, in source order; a `None` or
empty-string filter (falsy in Python) restricts nothing. -/
def get_hosts (hosts : List InventoryHost) (protocol vendor : Option String) :
    List InventoryHost :=
  let hs1 :=
    match protocol with
    | none => hosts
    | some p => if p = "" then hosts else hosts.filter (fun h => h.protocol = pyLower p)
  match vendor with
  | none => hs1
  | some v => if v = "" then hs1 else hs1.filter (fun h => h.vendor = pyLower v)

/-! ### collector.py -/

/-- Outcome of one command execution by the external SSH backend: raw text,
or a failure whose exception renders to the given message. -/
inductive CmdOutcome : Type
  | ok (output : String)
  | failed (excMsg : String)
deriving DecidableEq

/-- The execution backend capability: host name and command string to
outcome.  Within one run the backend is assumed to give one outcome per
host and command, which is the premise of every reproducibility statement
below (identical per-command outcomes). -/
def Exec : Type := String → String → CmdOutcome

/-- The value `collect` stores in its `outputs` dictionary for one command
result: the raw text on success, the sentinel error string on failure. -/
def pyOutput : CmdOutcome → String
  | .ok out => out
  | .failed exc => "ERROR: " ++ exc

/-- Boolean success test of a command outcome. -/
def okB : CmdOutcome → Bool
  | .ok _ => true
  | .failed _ => false

/-- The text of a successful command outcome (unused dummy on failure). -/
def outB : CmdOutcome → String
  | .ok out => out
  | .failed _ => ""

/-- The value of one entry of the Nornir result mapping: a host-level
failure carrying the exception message (raised by `_collect_host` when
command resolution fails), or the per-command result dictionary built by
the loop of `_collect_host`. -/
inductive HostRunResult : Type
  | failed (excMsg : String)
  | ok (results : List (String × CmdOutcome))
deriving DecidableEq

/-- Model of `TopologyCollector._collect_host`: resolve the commands from
the registry for the vendor and protocol of the host (a resolution failure
returns a failed result carrying the `ValueError` message), then execute
every command in list order, each invocation guarded by its own
try/except, inserting each outcome into the result dictionary under the
command string. -/
def collect_host (exec : Exec) (h : InventoryHost) : HostRunResult :=
  match get_commands h.protocol h.vendor with
  | .error e => .failed e.message
  | .ok commands =>
      .ok (commands.foldl (fun acc cmd => dinsert acc cmd (exec h.name cmd)) [])

/-- The `HostResult` dataclass of `collector.py`; `outputs` is the command
to text dictionary in insertion order. -/
structure HostResult : Type where
  hostname : String
  vendor : String
  protocol : String
  commands : List String
  outputs : List (String × String)
  success : Bool
  error : Option String
deriving DecidableEq

/-- The `CollectionResult` dataclass of `collector.py`. -/
structure CollectionResult : Type where
  raw_lsdb_text : String
  host_results : List HostResult
  errors : List String
deriving DecidableEq

/-- Model of the Python generator expression
`next((h for h in hosts if h.name == host_name), None)`. -/
def pyFind (hosts : List InventoryHost) (n : String) : Option InventoryHost :=
  hosts.find? (fun h => h.name = n)

/-- The labelled block `collect` builds for one successful command output. -/
def mkBlock (hostName cmd out : String) : String :=
  "=== " ++ hostName ++ " - " ++ cmd ++ " ===\n" ++ out ++ "\n"

/-- The body of the result-processing loop of `TopologyCollector.collect`
for one entry of the Nornir result mapping.  It returns the host result
appended (if any), the error strings appended, and the labelled blocks
appended to the aggregation, in their source order.  A failed entry
records a failed `HostResult` (when the host is found in scope) and a
run-level error; a successful entry re-resolves the commands (recording a
failed `HostResult` if that fails), then rebuilds the `outputs` dictionary
from the per-command results, recording a sentinel value and a run-level
error for each failed command and a labelled block for each successful
one, and records a `HostResult` with `success = true`.  The `result.result`
of a non-failed entry is always the dictionary built by `_collect_host`,
so the single-command fallback branch of the source is unreachable. -/
def processEntry (hosts : List InventoryHost) (e : String × HostRunResult) :
    Option HostResult × List String × List String :=
  match e with
  | (host_name, .failed exc) =>
    let error_msg := exc
    (match pyFind hosts host_name with
     | some host => some ⟨host.hostname, host.vendor, host.protocol, [], [], false, some error_msg⟩
     | none => none,
     [host_name ++ ": " ++ error_msg], [])
  | (host_name, .ok cmdResults) =>
    match pyFind hosts host_name with
    | none => (none, ["Host " ++ host_name ++ " not found in inventory"], [])
    | some host =>
      match get_commands host.protocol host.vendor with
      | .error e =>
        (some ⟨host.hostname, host.vendor, host.protocol, [], [], false, some e.message⟩,
         [host_name ++ ": " ++ e.message], [])
      | .ok commands =>
        let outputs := cmdResults.foldl
          (fun acc cr => dinsert acc cr.1 (pyOutput cr.2)) []
        let cmdErrors := cmdResults.filterMap (fun cr =>
          match cr.2 with
          | .failed exc => some (host_name ++ " - " ++ cr.1 ++ ": " ++ exc)
          | .ok _ => none)
        let blocks := cmdResults.filterMap (fun cr =>
          match cr.2 with
          | .failed _ => none
          | .ok out => some (mkBlock host_name cr.1 out))
        (some ⟨host.hostname, host.vendor, host.protocol, commands, outputs, true, none⟩,
         cmdErrors, blocks)

/-- Ascending-name comparison of inventory hosts, by code point as Python
sorts strings. -/
def nameLE (a b : InventoryHost) : Bool := charListLE a.name.data b.name.data

/-- The order in which `collect` receives the Nornir results.
`_init_nornir` serialises the host mapping with `yaml.dump`, whose default
`sort_keys=True` writes the hosts file with keys in ascending order; the
SimpleInventory plugin preserves file order, the threaded runner submits
one task per host in that order and gathers the futures in submission
order, so `results.items()` yields the hosts in ascending name order
regardless of completion order. -/
def sortHostsByName (hosts : List InventoryHost) : List InventoryHost :=
  sortByB nameLE hosts

/-- Model of `TopologyCollector.collect(protocol)`: filter the inventory by
the optional protocol override; on an empty selection return the empty
result with the single no-hosts error; otherwise run `_collect_host` for
every host (the per-host tasks are independent, and the result mapping is
keyed and ordered as described at `sortHostsByName`), process every entry
with the result-processing loop, and join the collected blocks with a
newline so that consecutive labelled blocks are separated by a blank
line. -/
def collect (exec : Exec) (inventoryHosts : List InventoryHost)
    (protocol : Option String) : CollectionResult :=
  let hosts := get_hosts inventoryHosts protocol none
  if hosts.isEmpty then
    ⟨"", [], ["No hosts found in inventory"]⟩
  else
    let runResults := (sortHostsByName hosts).map (fun h => (h.name, collect_host exec h))
    let processed := runResults.map (processEntry hosts)
    ⟨joinSep "\n" (concatMap (fun p => p.2.2) processed),
     processed.filterMap (fun p => p.1),
     concatMap (fun p => p.2.1) processed⟩

/-! ### Declarative per-host descriptions used by the statements -/

/-- The labelled blocks one host contributes to the aggregated text: none
when command resolution fails, otherwise one block per distinct resolved
command in first-occurrence order, for exactly the commands whose
execution succeeded. -/
def hostBlocks (exec : Exec) (h : InventoryHost) : List String :=
  match get_commands h.protocol h.vendor with
  | .error _ => []
  | .ok cmds => (firstOccur cmds).filterMap (fun c =>
      match exec h.name c with
      | .ok out => some (mkBlock h.name c out)
      | .failed _ => none)

/-- The run-level error strings one host contributes. -/
def hostErrors (exec : Exec) (h : InventoryHost) : List String :=
  match get_commands h.protocol h.vendor with
  | .error e => [h.name ++ ": " ++ e.message]
  | .ok cmds => (firstOccur cmds).filterMap (fun c =>
      match exec h.name c with
      | .failed m => some (h.name ++ " - " ++ c ++ ": " ++ m)
      | .ok _ => none)

/-- The `HostResult` record one host contributes: a failed record on a
resolution failure, otherwise a successful record whose outputs map each
distinct command to its text or sentinel. -/
def hostOutcome (exec : Exec) (h : InventoryHost) : HostResult :=
  match get_commands h.protocol h.vendor with
  | .error e => ⟨h.hostname, h.vendor, h.protocol, [], [], false, some e.message⟩
  | .ok cmds => ⟨h.hostname, h.vendor, h.protocol, cmds,
      (firstOccur cmds).map (fun c => (c, pyOutput (exec h.name c))), true, none⟩

/-- The aggregation the specification describes, written from its words:
the concatenation, in inventory host-list order, of the labelled blocks of
each host of the filtered selection, joined by the blank-line separator. -/
def claimText (exec : Exec) (inventoryHosts : List InventoryHost)
    (protocol : Option String) : String :=
  joinSep "\n" (concatMap (hostBlocks exec) (get_hosts inventoryHosts protocol none))

/-- The exception message inside a failed command outcome (empty dummy on
success). -/
def excOf : CmdOutcome → String
  | .ok _ => ""
  | .failed m => m

/-! ### Concrete fixtures for the closed witness statements -/

/-- The registered OSPF command list of the cisco vendor. -/
def cmdsCisco : List String :=
  ["show ip ospf database router",
   "show ip ospf database network",
   "show ip ospf database external"]

/-- A cisco OSPF host named a. -/
def hostA : InventoryHost := ⟨"a", "10.0.0.1", some "admin", some "pw", "cisco", "ospf", "22"⟩

/-- A cisco OSPF host named b. -/
def hostB : InventoryHost := ⟨"b", "10.0.0.2", some "admin", some "pw", "cisco", "ospf", "22"⟩

/-- A host whose vendor has no registry entry for its protocol. -/
def hostZ : InventoryHost := ⟨"z1", "10.0.0.9", some "admin", some "pw", "vyos", "ospf", "22"⟩

/-- A cisco IS-IS host. -/
def hostI : InventoryHost := ⟨"i1", "10.0.0.7", some "admin", some "pw", "cisco", "isis", "22"⟩

/-- A backend on which every command succeeds with a distinctive output. -/
def exOk : Exec := fun h c => .ok ("out-" ++ h ++ "-" ++ c)

/-- A backend on which one specific command fails on every host and every
other command succeeds. -/
def exFail2 : Exec := fun h c =>
  if c = "show ip ospf database network" then .failed "Connection timed out"
  else .ok ("out-" ++ h ++ "-" ++ c)

/-! ### Helper lemmas -/

theorem alookup_mem {α : Type} :
    ∀ {l : List (String × α)} {k : String} {v : α},
    alookup l k = some v → (k, v) ∈ l
  | [], _, _, h => by simp [alookup] at h
  | (k0, v0) :: rest, k, v, h => by
    by_cases hk : k0 = k
    · subst hk
      simp [alookup] at h
      subst h
      exact List.mem_cons_self _ _
    · simp [alookup, hk] at h
      exact List.mem_cons_of_mem _ (alookup_mem h)

theorem mem_concatMap {α β : Type} (f : α → List β) {b : β} :
    ∀ {l : List α}, b ∈ concatMap f l ↔ ∃ a ∈ l, b ∈ f a
  | [] => by simp [concatMap]
  | a :: l => by
    simp only [concatMap, List.mem_append, mem_concatMap f, List.mem_cons]
    constructor
    · rintro (h | ⟨x, hx, hb⟩)
      · exact ⟨a, Or.inl rfl, h⟩
      · exact ⟨x, Or.inr hx, hb⟩
    · rintro ⟨x, hx | hx, hb⟩
      · subst hx; exact Or.inl hb
      · exact Or.inr ⟨x, hx, hb⟩

theorem concatMap_congr {α β : Type} {f g : α → List β} :
    ∀ {l : List α}, (∀ a ∈ l, f a = g a) → concatMap f l = concatMap g l
  | [], _ => rfl
  | a :: l, h => by
    simp only [concatMap]
    rw [h a (List.mem_cons_self _ _), concatMap_congr (fun x hx => h x (List.mem_cons_of_mem _ hx))]

theorem concatMap_map {α β γ : Type} (g : β → List γ) (f : α → β) :
    ∀ (l : List α), concatMap g (l.map f) = concatMap (fun a => g (f a)) l
  | [] => rfl
  | a :: l => by simp only [List.map_cons, concatMap, concatMap_map g f l]

theorem mem_insertSorted {α : Type} (le : α → α → Bool) (x a : α) :
    ∀ (l : List α), a ∈ insertSorted le x l ↔ a = x ∨ a ∈ l
  | [] => by simp [insertSorted]
  | y :: ys => by
    simp only [insertSorted]
    by_cases h : le x y = true
    · rw [if_pos h]
      simp only [List.mem_cons]
    · rw [if_neg h]
      simp only [List.mem_cons, mem_insertSorted le x a ys]
      tauto

theorem mem_sortByB {α : Type} (le : α → α → Bool) (a : α) :
    ∀ (l : List α), a ∈ sortByB le l ↔ a ∈ l
  | [] => Iff.rfl
  | x :: xs => by
    simp only [sortByB, mem_insertSorted, mem_sortByB le a xs, List.mem_cons]

theorem mem_foldl_firstOccur (x : String) :
    ∀ (l acc : List String),
    x ∈ l.foldl (fun a c => if c ∈ a then a else a ++ [c]) acc ↔ x ∈ acc ∨ x ∈ l
  | [], acc => by simp
  | c :: l, acc => by
    simp only [List.foldl_cons]
    by_cases hc : c ∈ acc
    · simp only [if_pos hc, mem_foldl_firstOccur x l acc, List.mem_cons]
      constructor
      · rintro (h | h)
        · exact Or.inl h
        · exact Or.inr (Or.inr h)
      · rintro (h | h | h)
        · exact Or.inl h
        · subst h; exact Or.inl hc
        · exact Or.inr h
    · simp only [if_neg hc, mem_foldl_firstOccur x l (acc ++ [c]), List.mem_append,
        List.mem_singleton, List.mem_cons]
      tauto

theorem mem_firstOccur (x : String) (l : List String) : x ∈ firstOccur l ↔ x ∈ l := by
  unfold firstOccur
  rw [mem_foldl_firstOccur]
  simp

theorem foldl_firstOccur_nodup :
    ∀ (l acc : List String), acc.Nodup →
    (l.foldl (fun a c => if c ∈ a then a else a ++ [c]) acc).Nodup
  | [], acc, h => h
  | c :: l, acc, h => by
    simp only [List.foldl_cons]
    by_cases hc : c ∈ acc
    · rw [if_pos hc]
      exact foldl_firstOccur_nodup l acc h
    · rw [if_neg hc]
      refine foldl_firstOccur_nodup l (acc ++ [c]) ?_
      simp [List.nodup_append, h, hc]

theorem firstOccur_nodup (l : List String) : (firstOccur l).Nodup :=
  foldl_firstOccur_nodup l [] List.nodup_nil

theorem foldl_firstOccur_of_nodup :
    ∀ (l acc : List String), (acc ++ l).Nodup →
    l.foldl (fun a c => if c ∈ a then a else a ++ [c]) acc = acc ++ l
  | [], acc, _ => by simp
  | c :: l, acc, h => by
    have hc : c ∉ acc := by
      intro hmem
      have := List.disjoint_of_nodup_append h hmem
      simp at this
    simp only [List.foldl_cons, if_neg hc]
    have h2 : ((acc ++ [c]) ++ l).Nodup := by
      have : acc ++ c :: l = (acc ++ [c]) ++ l := by simp
      rw [← this]
      exact h
    rw [foldl_firstOccur_of_nodup l (acc ++ [c]) h2]
    simp

theorem firstOccur_of_nodup {l : List String} (h : l.Nodup) : firstOccur l = l := by
  unfold firstOccur
  exact foldl_firstOccur_of_nodup l [] (by simpa using h)

theorem firstOccur_idem (l : List String) : firstOccur (firstOccur l) = firstOccur l :=
  firstOccur_of_nodup (firstOccur_nodup l)

theorem any_map_fn {α β : Type} (f : α → β) (p : β → Bool) :
    ∀ (l : List α), (l.map f).any p = l.any (fun a => p (f a))
  | [] => rfl
  | a :: l => by
    simp only [List.map_cons, List.any_cons, any_map_fn f p l]

theorem dinsert_map_fn {β : Type} (f : String → β) (L : List String) (c : String) :
    dinsert (L.map (fun x => (x, f x))) c (f c) =
      (if c ∈ L then L else L ++ [c]).map (fun x => (x, f x)) := by
  unfold dinsert
  by_cases hc : c ∈ L
  · have hany : (L.map (fun x => (x, f x))).any (fun p => p.1 = c) = true := by
      rw [any_map_fn]
      exact List.any_eq_true.mpr ⟨c, hc, by simp⟩
    rw [if_pos hany, if_pos hc, List.map_map]
    refine List.map_congr_left ?_
    intro a _
    by_cases hac : a = c
    · subst hac; simp
    · simp [hac]
  · have hany : (L.map (fun x => (x, f x))).any (fun p => p.1 = c) = false := by
      rw [any_map_fn]
      refine List.any_eq_false.mpr ?_
      intro a ha
      intro hEq
      have : a = c := by simpa using hEq
      exact hc (this ▸ ha)
    rw [if_neg (by simp [hany]), if_neg hc]
    simp

theorem foldl_dinsert {β : Type} (f : String → β) :
    ∀ (cmds L : List String),
    cmds.foldl (fun acc c => dinsert acc c (f c)) (L.map (fun x => (x, f x))) =
      (cmds.foldl (fun acc c => if c ∈ acc then acc else acc ++ [c]) L).map
        (fun x => (x, f x))
  | [], L => rfl
  | c :: cmds, L => by
    simp only [List.foldl_cons]
    rw [dinsert_map_fn f L c]
    by_cases hc : c ∈ L
    · rw [if_pos hc, foldl_dinsert f cmds L]
    · rw [if_neg hc, foldl_dinsert f cmds (L ++ [c])]

theorem foldl_dinsert_nil {β : Type} (f : String → β) (cmds : List String) :
    cmds.foldl (fun acc c => dinsert acc c (f c)) [] =
      (firstOccur cmds).map (fun x => (x, f x)) :=
  foldl_dinsert f cmds []

theorem filterMap_congr_mem {α β : Type} {f g : α → Option β} :
    ∀ {l : List α}, (∀ a ∈ l, f a = g a) → l.filterMap f = l.filterMap g
  | [], _ => rfl
  | a :: l, h => by
    rw [List.filterMap_cons, List.filterMap_cons, h a (List.mem_cons_self _ _),
        filterMap_congr_mem (fun x hx => h x (List.mem_cons_of_mem _ hx))]

theorem filterMap_some_eq_map {α β : Type} (f : α → β) :
    ∀ (l : List α), l.filterMap (fun a => some (f a)) = l.map f
  | [] => rfl
  | a :: l => by
    rw [List.filterMap_cons, filterMap_some_eq_map f l, List.map_cons]

theorem find_name_nodup :
    ∀ {l : List InventoryHost} {h : InventoryHost},
    (l.map InventoryHost.name).Nodup → h ∈ l → pyFind l h.name = some h
  | [], _, _, hm => absurd hm (List.not_mem_nil _)
  | a :: tl, h, hn, hm => by
    rw [List.map_cons, List.nodup_cons] at hn
    by_cases ha : a.name = h.name
    · have hah : h = a := by
        rcases List.mem_cons.mp hm with h1 | h1
        · exact h1
        · exact absurd (ha ▸ List.mem_map_of_mem InventoryHost.name h1) hn.1
      subst hah
      exact List.find?_cons_of_pos tl (by simp)
    · have h1 : h ∈ tl := by
        rcases List.mem_cons.mp hm with h1 | h1
        · exact absurd (h1 ▸ rfl) ha
        · exact h1
      rw [pyFind, List.find?_cons_of_neg tl (by simp [ha])]
      exact find_name_nodup hn.2 h1

theorem outputs_fold_eq (exec : Exec) (n : String) (cmds : List String) :
    ((firstOccur cmds).map (fun c => (c, exec n c))).foldl
      (fun acc cr => dinsert acc cr.1 (pyOutput cr.2)) [] =
    (firstOccur cmds).map (fun c => (c, pyOutput (exec n c))) := by
  rw [List.foldl_map]
  have h := foldl_dinsert_nil (fun c => pyOutput (exec n c)) (firstOccur cmds)
  rw [firstOccur_idem] at h
  exact h

theorem processEntry_eq (exec : Exec) (scope : List InventoryHost) (h : InventoryHost)
    (hn : (scope.map InventoryHost.name).Nodup) (hm : h ∈ scope) :
    processEntry scope (h.name, collect_host exec h) =
      (some (hostOutcome exec h), hostErrors exec h, hostBlocks exec h) := by
  have hfind : pyFind scope h.name = some h := find_name_nodup hn hm
  cases hres : get_commands h.protocol h.vendor with
  | error e =>
    simp only [collect_host, hres, processEntry, hfind, hostOutcome, hostErrors, hostBlocks]
  | ok cmds =>
    have hch : collect_host exec h =
        .ok ((firstOccur cmds).map (fun c => (c, exec h.name c))) := by
      simp only [collect_host, hres]
      rw [foldl_dinsert_nil (fun c => exec h.name c) cmds]
    rw [hch]
    simp only [processEntry, hfind, hres]
    simp only [Prod.mk.injEq]
    refine ⟨?_, ?_, ?_⟩
    · rw [outputs_fold_eq]
      simp only [hostOutcome, hres]
    · rw [List.filterMap_map]
      simp only [hostErrors, hres]
      refine filterMap_congr_mem ?_
      intro c _
      cases hx : exec h.name c <;> simp [Function.comp, hx]
    · rw [List.filterMap_map]
      simp only [hostBlocks, hres]
      refine filterMap_congr_mem ?_
      intro c _
      cases hx : exec h.name c <;> simp [Function.comp, hx]

theorem get_hosts_sublist (hosts : List InventoryHost) (po vo : Option String) :
    List.Sublist (get_hosts hosts po vo) hosts := by
  cases po with
  | none =>
    cases vo with
    | none =>
      simp only [get_hosts]
      exact List.Sublist.refl hosts
    | some v =>
      simp only [get_hosts]
      by_cases hv : v = ""
      · rw [if_pos hv]
      · rw [if_neg hv]; exact List.filter_sublist hosts
  | some p =>
    cases vo with
    | none =>
      simp only [get_hosts]
      by_cases hp : p = ""
      · rw [if_pos hp]
      · rw [if_neg hp]; exact List.filter_sublist hosts
    | some v =>
      simp only [get_hosts]
      by_cases hp : p = ""
      · rw [if_pos hp]
        by_cases hv : v = ""
        · rw [if_pos hv]
        · rw [if_neg hv]; exact List.filter_sublist hosts
      · rw [if_neg hp]
        by_cases hv : v = ""
        · rw [if_pos hv]; exact List.filter_sublist hosts
        · rw [if_neg hv]; exact (List.filter_sublist _).trans (List.filter_sublist hosts)

theorem scope_names_nodup {hosts : List InventoryHost} {po vo : Option String}
    (hn : (hosts.map InventoryHost.name).Nodup) :
    ((get_hosts hosts po vo).map InventoryHost.name).Nodup :=
  List.Nodup.sublist (List.Sublist.map _ (get_hosts_sublist hosts po vo)) hn

theorem collect_text_eq (exec : Exec) (inv : List InventoryHost) (proto : Option String)
    (hn : (inv.map InventoryHost.name).Nodup) :
    (collect exec inv proto).raw_lsdb_text =
      joinSep "\n" (concatMap (hostBlocks exec) (sortHostsByName (get_hosts inv proto none))) := by
  have hscopeN : ((get_hosts inv proto none).map InventoryHost.name).Nodup :=
    scope_names_nodup hn
  simp only [collect]
  by_cases hemp : (get_hosts inv proto none).isEmpty = true
  · rw [if_pos hemp]
    rw [List.isEmpty_iff.mp hemp]
    rfl
  · rw [if_neg hemp]
    simp only [List.map_map]
    rw [concatMap_map]
    congr 1
    refine concatMap_congr ?_
    intro h hh
    have hmem : h ∈ get_hosts inv proto none := (mem_sortByB _ _ _).mp hh
    simp only [Function.comp]
    rw [processEntry_eq exec _ h hscopeN hmem]

theorem collect_results_eq (exec : Exec) (inv : List InventoryHost) (proto : Option String)
    (hn : (inv.map InventoryHost.name).Nodup) :
    (collect exec inv proto).host_results =
      (sortHostsByName (get_hosts inv proto none)).map (hostOutcome exec) := by
  have hscopeN : ((get_hosts inv proto none).map InventoryHost.name).Nodup :=
    scope_names_nodup hn
  simp only [collect]
  by_cases hemp : (get_hosts inv proto none).isEmpty = true
  · rw [if_pos hemp]
    rw [List.isEmpty_iff.mp hemp]
    rfl
  · rw [if_neg hemp]
    simp only [List.map_map]
    rw [List.filterMap_map]
    rw [filterMap_congr_mem (g := fun h => some (hostOutcome exec h)) ?_]
    · exact filterMap_some_eq_map _ _
    · intro h hh
      have hmem : h ∈ get_hosts inv proto none := (mem_sortByB _ _ _).mp hh
      simp only [Function.comp]
      rw [processEntry_eq exec _ h hscopeN hmem]

theorem collect_errors_mem (exec : Exec) (inv : List InventoryHost) (proto : Option String)
    (hn : (inv.map InventoryHost.name).Nodup) {h : InventoryHost}
    (hmem : h ∈ get_hosts inv proto none) {e : String}
    (he : e ∈ hostErrors exec h) : e ∈ (collect exec inv proto).errors := by
  have hscopeN : ((get_hosts inv proto none).map InventoryHost.name).Nodup :=
    scope_names_nodup hn
  simp only [collect]
  have hemp : ¬ (get_hosts inv proto none).isEmpty = true := by
    intro hx
    rw [List.isEmpty_iff.mp hx] at hmem
    exact absurd hmem (List.not_mem_nil _)
  rw [if_neg hemp]
  simp only [List.map_map]
  rw [concatMap_map]
  rw [concatMap_congr (g := hostErrors exec) ?_]
  · exact (mem_concatMap _).mpr ⟨h, (mem_sortByB _ _ _).mpr hmem, he⟩
  · intro x hx
    have hmx : x ∈ get_hosts inv proto none := (mem_sortByB _ _ _).mp hx
    simp only [Function.comp]
    rw [processEntry_eq exec _ x hscopeN hmx]

theorem keyIdx_of_mem :
    ∀ {l : List ((String × String) × List String)} {k : String × String} {x : List String},
    (l.map Prod.fst).Nodup → (k, x) ∈ l →
    ∃ i, keyIdx (l.map Prod.fst) k = some i ∧ i < l.length ∧
      storeGet (l.map Prod.snd) i = x
  | [], _, _, _, hm => absurd hm (List.not_mem_nil _)
  | (k0, x0) :: rest, k, x, hn, hm => by
    rw [List.map_cons, List.nodup_cons] at hn
    by_cases hk : k0 = k
    · subst hk
      have hx : x0 = x := by
        rcases List.mem_cons.mp hm with h1 | h1
        · exact (Prod.mk.injEq .. ▸ h1).2.symm ▸ rfl
        · exact absurd (List.mem_map_of_mem Prod.fst h1) hn.1
      refine ⟨0, ?_, by simp, ?_⟩
      · simp [keyIdx]
      · simpa [storeGet] using hx
    · have h1 : (k, x) ∈ rest := by
        rcases List.mem_cons.mp hm with h1 | h1
        · exact absurd ((Prod.mk.injEq .. ▸ h1).1.symm) hk
        · exact h1
      obtain ⟨i, hi, hlen, hget⟩ := keyIdx_of_mem hn.2 h1
      refine ⟨i + 1, ?_, ?_, ?_⟩
      · simp [keyIdx, hk, hi]
      · simpa using Nat.succ_lt_succ hlen
      · simpa [storeGet] using hget

theorem storeGet_append_lt :
    ∀ (s t : List (List String)) (i : Nat), i < s.length →
    storeGet (s ++ t) i = storeGet s i
  | [], _, i, h => absurd h (by simp)
  | _ :: _, _, 0, _ => rfl
  | _ :: s, t, i + 1, h => storeGet_append_lt s t i (Nat.lt_of_succ_lt_succ h)

theorem storeGet_append_len :
    ∀ (s : List (List String)) (v : List String), storeGet (s ++ [v]) s.length = v
  | [], _ => rfl
  | _ :: s, v => storeGet_append_len s v

theorem storeWrite_append_len :
    ∀ (s : List (List String)) (v w : List String),
    storeWrite (s ++ [v]) s.length w = s ++ [w]
  | [], _, _ => rfl
  | c :: s, v, w => by
    show c :: storeWrite (s ++ [v]) s.length w = c :: (s ++ [w])
    rw [storeWrite_append_len s v w]

theorem mem_regFlat {p v : String} {vendors : List (String × List String)}
    {cmds : List String}
    (hp : alookup COMMAND_REGISTRY p = some vendors)
    (hv : alookup vendors v = some cmds) :
    ((p, v), cmds) ∈ regFlat := by
  have h1 : (p, vendors) ∈ COMMAND_REGISTRY := alookup_mem hp
  have h2 : (v, cmds) ∈ vendors := alookup_mem hv
  exact (mem_concatMap _).mpr ⟨(p, vendors), h1,
    List.mem_map_of_mem (fun vc => ((p, vc.1), vc.2)) h2⟩

set_option maxRecDepth 40000 in
theorem regKeys_nodup : regKeys.Nodup := by decide

theorem mkInventoryHost_err {n : String} {d : List (String × String)}
    (h : missingFieldB d = true) :
    mkInventoryHost n d = .error (fieldErrorMsg n d) := by
  by_cases h1 : pyTruthy (pyOrStr (alookup d "hostname") (alookup d "host")) = false
  · simp [mkInventoryHost, fieldErrorMsg, h1]
  · by_cases h2 : pyLower ((alookup d "vendor").getD "") = ""
    · simp [mkInventoryHost, fieldErrorMsg, h1, h2]
    · by_cases h3 : pyLower ((alookup d "protocol").getD "") = ""
      · simp [mkInventoryHost, fieldErrorMsg, h1, h2, h3]
      · exfalso
        simp [missingFieldB, h1, h2, h3] at h

theorem mkInventoryHost_fields {n : String} {d : List (String × String)}
    {h : InventoryHost} (hmk : mkInventoryHost n d = .ok h) :
    h.name = n ∧
    h.vendor = pyLower ((alookup d "vendor").getD "") ∧
    h.protocol = pyLower ((alookup d "protocol").getD "") := by
  simp only [mkInventoryHost] at hmk
  split_ifs at hmk with h1 h2 h3
  have := (Except.ok.injEq .. ▸ hmk)
  rw [← this]
  exact ⟨rfl, rfl, rfl⟩

theorem loadHosts_mem_shape :
    ∀ {entries : List (String × List (String × String))} {hosts : List InventoryHost},
    loadHosts entries = .ok hosts → ∀ h ∈ hosts,
    ∃ n d, (n, d) ∈ entries ∧ mkInventoryHost n d = .ok h
  | [], hosts, heq, h, hm => by
    simp only [loadHosts] at heq
    cases heq
    exact absurd hm (List.not_mem_nil _)
  | (n0, d0) :: rest, hosts, heq, h, hm => by
    by_cases hs : pyStartsWith n0 "---" = true
    · rw [loadHosts, if_pos hs] at heq
      obtain ⟨n, d, hmem, hmk⟩ := loadHosts_mem_shape heq h hm
      exact ⟨n, d, List.mem_cons_of_mem _ hmem, hmk⟩
    · rw [loadHosts, if_neg hs] at heq
      cases hmk0 : mkInventoryHost n0 d0 with
      | error e => rw [hmk0] at heq; cases heq
      | ok h0 =>
        rw [hmk0] at heq
        cases hrest : loadHosts rest with
        | error e => rw [hrest] at heq; cases heq
        | ok hs0 =>
          rw [hrest] at heq
          simp only [Except.map_ok] at heq
          cases heq
          rcases List.mem_cons.mp hm with h1 | h1
          · exact ⟨n0, d0, List.mem_cons_self _ _, h1 ▸ hmk0⟩
          · obtain ⟨n, d, hmem, hmk⟩ := loadHosts_mem_shape hrest h h1
            exact ⟨n, d, List.mem_cons_of_mem _ hmem, hmk⟩

theorem loadHosts_filter :
    ∀ (entries : List (String × List (String × String))),
    loadHosts entries =
      loadHosts (entries.filter (fun e => !(pyStartsWith e.1 "---")))
  | [] => rfl
  | (n, d) :: rest => by
    by_cases hs : pyStartsWith n "---" = true
    · rw [loadHosts, if_pos hs,
         List.filter_cons_of_neg (by simpa using hs), loadHosts_filter rest]
    · rw [loadHosts, if_neg hs, List.filter_cons_of_pos (by simpa using hs),
         loadHosts, if_neg hs, loadHosts_filter rest]

theorem hostBlocks_filter_eq (exec : Exec) (h : InventoryHost) {cmds : List String}
    (hres : get_commands h.protocol h.vendor = .ok cmds) :
    hostBlocks exec h =
      ((firstOccur cmds).filter (fun c => okB (exec h.name c))).map
        (fun c => mkBlock h.name c (outB (exec h.name c))) := by
  simp only [hostBlocks, hres]
  induction firstOccur cmds with
  | nil => rfl
  | cons c l ih =>
    rw [List.filterMap_cons, List.filter_cons]
    cases hx : exec h.name c with
    | ok out => simp [okB, outB, hx, ih]
    | failed m => simp [okB, hx, ih]

/-! ### Claim theorems -/

set_option maxRecDepth 200000 in
/-- Counterexample to claim C1: with two all-successful cisco OSPF hosts
listed in the inventory as b before a, the aggregated `raw_lsdb_text` is
not the concatenation in inventory host-list order (`claimText`), because
the collector hands the hosts to the runner sorted by name, so the blocks
of a precede the blocks of b. -/
theorem C1_counterexample :
    (collect exOk [hostB, hostA] none).raw_lsdb_text ≠
      claimText exOk [hostB, hostA] none := by decide

/-- Claim C1 (amended): for inventories with distinct host names, the
aggregated `raw_lsdb_text` is exactly the concatenation, in ascending
host-name order (the order the collector hands hosts to the runner), of
each host of the filtered selection: one labelled block per distinct
resolved command in first-occurrence resolution order, successful command
outcomes only, blocks joined by a newline and therefore separated by a
blank line.  The right-hand side depends only on the selected host list,
the registry and the per-command outcomes, so the artifact is
byte-for-byte reproducible and independent of completion order. -/
theorem C1_amended_aggregation (exec : Exec) (inv : List InventoryHost)
    (proto : Option String) (hn : (inv.map InventoryHost.name).Nodup) :
    (collect exec inv proto).raw_lsdb_text =
      joinSep "\n" (concatMap (hostBlocks exec)
        (sortHostsByName (get_hosts inv proto none))) :=
  collect_text_eq exec inv proto hn

set_option maxRecDepth 200000 in
/-- Witness for the amended claim C1 at a concrete two-host inventory. -/
theorem C1_amended_aggregation_witness :
    (([hostB, hostA].map InventoryHost.name).Nodup) ∧
    (collect exOk [hostB, hostA] none).raw_lsdb_text =
      joinSep "\n" (concatMap (hostBlocks exOk)
        (sortHostsByName (get_hosts [hostB, hostA] none none))) :=
  ⟨by decide, C1_amended_aggregation exOk [hostB, hostA] none (by decide)⟩

/-- Claim C5: `get_commands` with an unregistered protocol fails with the
protocol-not-found error; with a registered protocol but unregistered
vendor it fails with the distinct vendor-not-found error carrying the list
of valid vendors for that protocol (the same list `list_vendors` returns);
the two error shapes are never equal, so the caller can distinguish the
two failure cases. -/
theorem C5_distinct_errors :
    (∀ p v : String, alookup COMMAND_REGISTRY (pyLower p) = none →
      get_commands p v = .error (.protocolNotFound (pyLower p)) ∧
      list_vendors p = .error (.protocolNotFound (pyLower p))) ∧
    (∀ (p v : String) (vendors : List (String × List String)),
      alookup COMMAND_REGISTRY (pyLower p) = some vendors →
      alookup vendors (pyLower v) = none →
      get_commands p v =
        .error (.vendorNotFound (pyLower v) (pyLower p) (vendors.map Prod.fst)) ∧
      list_vendors p = .ok (vendors.map Prod.fst)) ∧
    (∀ (a b c : String) (l : List String),
      GetCommandsError.protocolNotFound a ≠ GetCommandsError.vendorNotFound b c l) := by
  refine ⟨?_, ?_, ?_⟩
  · intro p v h
    exact ⟨by simp [get_commands, h], by simp [list_vendors, h]⟩
  · intro p v vendors hp hv
    exact ⟨by simp [get_commands, hp, hv], by simp [list_vendors, hp]⟩
  · intro a b c l h
    exact GetCommandsError.noConfusion h

/-- Witness for claim C5: the protocol bgp is unregistered; for the
registered protocol ospf the vendor vyos is unregistered; the two errors
differ. -/
theorem C5_distinct_errors_witness :
    (alookup COMMAND_REGISTRY (pyLower "bgp") = none ∧
     alookup ((alookup COMMAND_REGISTRY "ospf").getD []) (pyLower "vyos") = none) ∧
    get_commands "bgp" "cisco" = .error (.protocolNotFound (pyLower "bgp")) ∧
    get_commands "ospf" "vyos" =
      .error (.vendorNotFound (pyLower "vyos") (pyLower "ospf")
        (((alookup COMMAND_REGISTRY "ospf").getD []).map Prod.fst)) ∧
    GetCommandsError.protocolNotFound "bgp" ≠
      GetCommandsError.vendorNotFound "vyos" "ospf" [] :=
  ⟨⟨by decide, by decide⟩,
   (C5_distinct_errors.1 "bgp" "cisco" (by decide)).1,
   (C5_distinct_errors.2.1 "ospf" "vyos" ((alookup COMMAND_REGISTRY "ospf").getD [])
     (by decide) (by decide)).1,
   C5_distinct_errors.2.2 "bgp" "vyos" "ospf" []⟩

/-- Claim C8: when the filtered host selection is empty, `collect` returns
(rather than raising) the result with empty text, no host results, and
exactly the single no-hosts error. -/
theorem C8_empty_selection (exec : Exec) (inv : List InventoryHost)
    (proto : Option String) (h : get_hosts inv proto none = []) :
    collect exec inv proto = ⟨"", [], ["No hosts found in inventory"]⟩ := by
  simp [collect, h]

/-- Witness for claim C8: an IS-IS-only inventory filtered to OSPF. -/
theorem C8_empty_selection_witness :
    get_hosts [hostI] (some "ospf") none = [] ∧
    collect exOk [hostI] (some "ospf") = ⟨"", [], ["No hosts found in inventory"]⟩ :=
  ⟨by decide, C8_empty_selection exOk [hostI] (some "ospf") (by decide)⟩

/-- Claim C9: entries whose key starts with the YAML document-separator
marker are skipped during load: the load outcome, including the resulting
host list and any validation error, is identical to loading the mapping
with those entries removed, so they produce no host and cause no
validation error. -/
theorem C9_separator_entries_skipped (path : String)
    (entries : List (String × List (String × String))) :
    load_inventory path (some (.ok (.dict entries))) =
      load_inventory path (some (.ok (.dict (entries.filter
        (fun e => !(pyStartsWith e.1 "---")))))) := by
  simp only [load_inventory]
  exact loadHosts_filter entries

set_option maxRecDepth 400000 in
theorem registry_cmdlists_nonempty :
    ∀ pv ∈ COMMAND_REGISTRY, ∀ vc ∈ pv.2, vc.2 ≠ [] := by decide

set_option maxRecDepth 400000 in
theorem ospf_cmdlists_len3 :
    ∀ vc ∈ (alookup COMMAND_REGISTRY "ospf").getD [], vc.2.length = 3 := by decide

/-- Claim C10: every registered command list is non-empty, every OSPF
vendor has exactly three commands, and therefore `get_commands` never
returns an empty list on a registered pair. -/
theorem C10_registry_nonempty :
    (∀ pv ∈ COMMAND_REGISTRY, ∀ vc ∈ pv.2, vc.2 ≠ []) ∧
    (∀ vc ∈ (alookup COMMAND_REGISTRY "ospf").getD [], vc.2.length = 3) ∧
    (∀ p v cmds, get_commands p v = .ok cmds → cmds ≠ []) := by
  refine ⟨registry_cmdlists_nonempty, ospf_cmdlists_len3, ?_⟩
  intro p v cmds h
  simp only [get_commands] at h
  cases hp : alookup COMMAND_REGISTRY (pyLower p) with
  | none =>
    rw [hp] at h
    exact Except.noConfusion h
  | some vendors =>
    rw [hp] at h
    simp only [] at h
    cases hv : alookup vendors (pyLower v) with
    | none =>
      rw [hv] at h
      exact Except.noConfusion h
    | some cs =>
      rw [hv] at h
      simp only [] at h
      have hcs : cs = cmds := by
        injection h
      subst hcs
      exact registry_cmdlists_nonempty _ (alookup_mem hp) _ (alookup_mem hv)

/-- Witness for claim C10 at the ospfv3 registry entry and the cisco OSPF
pair. -/
theorem C10_registry_nonempty_witness :
    (("ospfv3", [("arista", ["show ipv6 ospf database detail"])]) ∈ COMMAND_REGISTRY ∧
     ("arista", ["show ipv6 ospf database detail"]) ∈
       [("arista", ["show ipv6 ospf database detail"])] ∧
     get_commands "ospf" "cisco" = .ok cmdsCisco) ∧
    (["show ipv6 ospf database detail"] : List String) ≠ [] ∧
    cmdsCisco ≠ [] :=
  ⟨⟨by decide, by decide, by decide⟩,
   C10_registry_nonempty.1 ("ospfv3", [("arista", ["show ipv6 ospf database detail"])])
     (by decide) ("arista", ["show ipv6 ospf database detail"]) (by decide),
   C10_registry_nonempty.2.2 "ospf" "cisco" cmdsCisco (by decide)⟩

/-- Claim C2: for a host whose command resolution succeeded, every resolved
command has its outcome recorded even when earlier commands failed (the
per-command try/except isolates failures), the host contributes a
`HostResult` with `success = true` whose outputs map each distinct command
to its text or to the sentinel error string, every failed command also
adds a run-level error string, and the aggregated text consists only of
blocks of commands whose execution succeeded, so the output of a failed
command never reaches `raw_lsdb_text`. -/
theorem C2_command_isolation (exec : Exec) (inv : List InventoryHost)
    (proto : Option String) (h : InventoryHost) (cmds : List String)
    (hn : (inv.map InventoryHost.name).Nodup)
    (hmem : h ∈ get_hosts inv proto none)
    (hres : get_commands h.protocol h.vendor = .ok cmds) :
    collect_host exec h = .ok ((firstOccur cmds).map (fun c => (c, exec h.name c))) ∧
    (⟨h.hostname, h.vendor, h.protocol, cmds,
      (firstOccur cmds).map (fun c => (c, pyOutput (exec h.name c))), true, none⟩ :
        HostResult) ∈ (collect exec inv proto).host_results ∧
    (∀ c ∈ cmds, okB (exec h.name c) = false →
      (c, "ERROR: " ++ excOf (exec h.name c)) ∈
        (firstOccur cmds).map (fun c => (c, pyOutput (exec h.name c))) ∧
      (h.name ++ " - " ++ c ++ ": " ++ excOf (exec h.name c)) ∈
        (collect exec inv proto).errors) ∧
    (collect exec inv proto).raw_lsdb_text =
      joinSep "\n" (concatMap (hostBlocks exec)
        (sortHostsByName (get_hosts inv proto none))) ∧
    hostBlocks exec h =
      ((firstOccur cmds).filter (fun c => okB (exec h.name c))).map
        (fun c => mkBlock h.name c (outB (exec h.name c))) := by
  refine ⟨?_, ?_, ?_, collect_text_eq exec inv proto hn, hostBlocks_filter_eq exec h hres⟩
  · simp only [collect_host, hres]
    rw [foldl_dinsert_nil (fun c => exec h.name c) cmds]
  · rw [collect_results_eq exec inv proto hn]
    have hsm : h ∈ sortHostsByName (get_hosts inv proto none) :=
      (mem_sortByB _ _ _).mpr hmem
    have hout : hostOutcome exec h =
        ⟨h.hostname, h.vendor, h.protocol, cmds,
         (firstOccur cmds).map (fun c => (c, pyOutput (exec h.name c))), true, none⟩ := by
      simp only [hostOutcome, hres]
    exact hout ▸ List.mem_map_of_mem (hostOutcome exec) hsm
  · intro c hc hfail
    have hcf : c ∈ firstOccur cmds := (mem_firstOccur c cmds).mpr hc
    cases hx : exec h.name c with
    | ok out =>
      rw [hx] at hfail
      simp [okB] at hfail
    | failed m =>
      constructor
      · have hmm : (c, pyOutput (exec h.name c)) ∈
            (firstOccur cmds).map (fun c => (c, pyOutput (exec h.name c))) :=
          List.mem_map_of_mem (fun c => (c, pyOutput (exec h.name c))) hcf
        rw [hx] at hmm
        exact hmm
      · refine collect_errors_mem exec inv proto hn hmem ?_
        simp only [hostErrors, hres]
        refine List.mem_filterMap.mpr ⟨c, hcf, ?_⟩
        rw [hx]
        simp [excOf, hx]

/-- Witness for claim C2: one cisco OSPF host on a backend that fails the
second registered command. -/
theorem C2_command_isolation_witness :
    (([hostA].map InventoryHost.name).Nodup ∧
     hostA ∈ get_hosts [hostA] none none ∧
     get_commands hostA.protocol hostA.vendor = .ok cmdsCisco) ∧
    (collect_host exFail2 hostA =
      .ok ((firstOccur cmdsCisco).map (fun c => (c, exFail2 hostA.name c))) ∧
    (⟨hostA.hostname, hostA.vendor, hostA.protocol, cmdsCisco,
      (firstOccur cmdsCisco).map (fun c => (c, pyOutput (exFail2 hostA.name c))),
      true, none⟩ : HostResult) ∈ (collect exFail2 [hostA] none).host_results ∧
    (∀ c ∈ cmdsCisco, okB (exFail2 hostA.name c) = false →
      (c, "ERROR: " ++ excOf (exFail2 hostA.name c)) ∈
        (firstOccur cmdsCisco).map (fun c => (c, pyOutput (exFail2 hostA.name c))) ∧
      (hostA.name ++ " - " ++ c ++ ": " ++ excOf (exFail2 hostA.name c)) ∈
        (collect exFail2 [hostA] none).errors) ∧
    (collect exFail2 [hostA] none).raw_lsdb_text =
      joinSep "\n" (concatMap (hostBlocks exFail2)
        (sortHostsByName (get_hosts [hostA] none none))) ∧
    hostBlocks exFail2 hostA =
      ((firstOccur cmdsCisco).filter (fun c => okB (exFail2 hostA.name c))).map
        (fun c => mkBlock hostA.name c (outB (exFail2 hostA.name c)))) :=
  ⟨⟨by decide, by decide, by decide⟩,
   C2_command_isolation exFail2 [hostA] none hostA cmdsCisco
     (by decide) (by decide) (by decide)⟩

/-- Claim C3: a host whose protocol and vendor pair has no registry entry
contributes a `HostResult` with `success = false`, empty commands and
outputs and the resolution message as its error, a run-level error string
naming the host is recorded, and every host of the selection, this one
included, still contributes exactly its own host result: the resolution
failure never aborts the run. -/
theorem C3_resolution_failure_isolated (exec : Exec) (inv : List InventoryHost)
    (proto : Option String) (h : InventoryHost) (e : GetCommandsError)
    (hn : (inv.map InventoryHost.name).Nodup)
    (hmem : h ∈ get_hosts inv proto none)
    (hres : get_commands h.protocol h.vendor = .error e) :
    (⟨h.hostname, h.vendor, h.protocol, [], [], false, some e.message⟩ : HostResult)
      ∈ (collect exec inv proto).host_results ∧
    (h.name ++ ": " ++ e.message) ∈ (collect exec inv proto).errors ∧
    (collect exec inv proto).host_results =
      (sortHostsByName (get_hosts inv proto none)).map (hostOutcome exec) ∧
    ∀ h2 ∈ get_hosts inv proto none,
      hostOutcome exec h2 ∈ (collect exec inv proto).host_results := by
  have hout : hostOutcome exec h =
      ⟨h.hostname, h.vendor, h.protocol, [], [], false, some e.message⟩ := by
    simp only [hostOutcome, hres]
  refine ⟨?_, ?_, collect_results_eq exec inv proto hn, ?_⟩
  · rw [collect_results_eq exec inv proto hn]
    exact hout ▸ List.mem_map_of_mem (hostOutcome exec) ((mem_sortByB _ _ _).mpr hmem)
  · refine collect_errors_mem exec inv proto hn hmem ?_
    simp only [hostErrors, hres]
    exact List.mem_singleton.mpr rfl
  · intro h2 hm2
    rw [collect_results_eq exec inv proto hn]
    exact List.mem_map_of_mem (hostOutcome exec) ((mem_sortByB _ _ _).mpr hm2)

/-- Witness for claim C3: an inventory with a registered cisco host and a
host of the unregistered vendor vyos. -/
theorem C3_resolution_failure_isolated_witness :
    (([hostA, hostZ].map InventoryHost.name).Nodup ∧
     hostZ ∈ get_hosts [hostA, hostZ] none none ∧
     get_commands hostZ.protocol hostZ.vendor =
       .error (.vendorNotFound "vyos" "ospf"
         (((alookup COMMAND_REGISTRY "ospf").getD []).map Prod.fst))) ∧
    ((⟨hostZ.hostname, hostZ.vendor, hostZ.protocol, [], [], false,
      some (GetCommandsError.vendorNotFound "vyos" "ospf"
        (((alookup COMMAND_REGISTRY "ospf").getD []).map Prod.fst)).message⟩ :
        HostResult) ∈ (collect exOk [hostA, hostZ] none).host_results ∧
    (hostZ.name ++ ": " ++ (GetCommandsError.vendorNotFound "vyos" "ospf"
        (((alookup COMMAND_REGISTRY "ospf").getD []).map Prod.fst)).message) ∈
      (collect exOk [hostA, hostZ] none).errors ∧
    (collect exOk [hostA, hostZ] none).host_results =
      (sortHostsByName (get_hosts [hostA, hostZ] none none)).map (hostOutcome exOk) ∧
    ∀ h2 ∈ get_hosts [hostA, hostZ] none none,
      hostOutcome exOk h2 ∈ (collect exOk [hostA, hostZ] none).host_results) :=
  ⟨⟨by decide, by decide, by decide⟩,
   C3_resolution_failure_isolated exOk [hostA, hostZ] none hostZ
     (.vendorNotFound "vyos" "ospf"
       (((alookup COMMAND_REGISTRY "ospf").getD []).map Prod.fst))
     (by decide) (by decide) (by decide)⟩

/-- Claim C4: for every registered protocol and vendor pair, `get_commands`
returns exactly the registered command list, and in the store model of
Python list objects each call allocates a fresh cell: the first call
returns a reference holding the registered list, mutating that reference
visibly changes it, and a second call after the mutation still returns a
different, freshly allocated reference holding the registered list. -/
theorem C4_returns_fresh_copy (protocol vendor : String)
    (vendors : List (String × List String)) (cmds : List String)
    (hp : alookup COMMAND_REGISTRY (pyLower protocol) = some vendors)
    (hv : alookup vendors (pyLower vendor) = some cmds) :
    get_commands protocol vendor = .ok cmds ∧
    ∃ s1 r1, get_commands_st initStore protocol vendor = .ok (s1, r1) ∧
      storeGet s1 r1 = cmds ∧
      ∀ mutated : List String,
        storeGet (storeWrite s1 r1 mutated) r1 = mutated ∧
        ∃ s3 r2, get_commands_st (storeWrite s1 r1 mutated) protocol vendor =
            .ok (s3, r2) ∧ r2 ≠ r1 ∧ storeGet s3 r2 = cmds := by
  have hmem : ((pyLower protocol, pyLower vendor), cmds) ∈ regFlat := mem_regFlat hp hv
  obtain ⟨i, hi, hlen, hget⟩ := keyIdx_of_mem (l := regFlat) regKeys_nodup hmem
  have hi' : keyIdx regKeys (pyLower protocol, pyLower vendor) = some i := hi
  have hget' : storeGet initStore i = cmds := hget
  have hlen' : i < initStore.length := by
    rw [initStore, List.length_map]
    exact hlen
  refine ⟨by simp [get_commands, hp, hv], initStore ++ [cmds], initStore.length,
    ?_, storeGet_append_len initStore cmds, ?_⟩
  · simp only [get_commands_st, hp, hv, hi']
    rw [hget']
  · intro mutated
    have hw : storeWrite (initStore ++ [cmds]) initStore.length mutated =
        initStore ++ [mutated] := storeWrite_append_len initStore cmds mutated
    refine ⟨?_, initStore ++ [mutated] ++ [cmds], (initStore ++ [mutated]).length,
      ?_, ?_, ?_⟩
    · rw [hw]
      exact storeGet_append_len initStore mutated
    · rw [hw]
      simp only [get_commands_st, hp, hv, hi']
      rw [storeGet_append_lt initStore [mutated] i hlen', hget']
    · simp only [List.length_append, List.length_cons, List.length_nil]
      exact Nat.succ_ne_self _
    · exact storeGet_append_len _ cmds

/-- Witness for claim C4 at the cisco OSPF registry pair. -/
theorem C4_returns_fresh_copy_witness :
    (alookup COMMAND_REGISTRY (pyLower "ospf") =
       some ((alookup COMMAND_REGISTRY "ospf").getD []) ∧
     alookup ((alookup COMMAND_REGISTRY "ospf").getD []) (pyLower "cisco") =
       some cmdsCisco) ∧
    (get_commands "ospf" "cisco" = .ok cmdsCisco ∧
    ∃ s1 r1, get_commands_st initStore "ospf" "cisco" = .ok (s1, r1) ∧
      storeGet s1 r1 = cmdsCisco ∧
      ∀ mutated : List String,
        storeGet (storeWrite s1 r1 mutated) r1 = mutated ∧
        ∃ s3 r2, get_commands_st (storeWrite s1 r1 mutated) "ospf" "cisco" =
            .ok (s3, r2) ∧ r2 ≠ r1 ∧ storeGet s3 r2 = cmdsCisco) :=
  ⟨⟨by decide, by decide⟩,
   C4_returns_fresh_copy "ospf" "cisco" ((alookup COMMAND_REGISTRY "ospf").getD [])
     cmdsCisco (by decide) (by decide)⟩

theorem mkInventoryHost_ok_exists {n : String} {d : List (String × String)}
    (h : missingFieldB d = false) : ∃ hst, mkInventoryHost n d = .ok hst := by
  by_cases h1 : pyTruthy (pyOrStr (alookup d "hostname") (alookup d "host")) = false
  · exfalso; simp [missingFieldB, h1] at h
  · by_cases h2 : pyLower ((alookup d "vendor").getD "") = ""
    · exfalso; simp [missingFieldB, h2] at h
    · by_cases h3 : pyLower ((alookup d "protocol").getD "") = ""
      · exfalso; simp [missingFieldB, h3] at h
      · refine ⟨⟨n, (pyOrStr (alookup d "hostname") (alookup d "host")).getD "",
          pyOrStr (alookup d "username") (alookup d "user"), alookup d "password",
          pyLower ((alookup d "vendor").getD ""), pyLower ((alookup d "protocol").getD ""),
          (alookup d "port").getD "22"⟩, ?_⟩
        simp [mkInventoryHost, h1, h2, h3]

theorem loadHosts_validation :
    ∀ {entries : List (String × List (String × String))},
    (∃ p ∈ entries, pyStartsWith p.1 "---" = false ∧ missingFieldB p.2 = true) →
    ∃ n d, (n, d) ∈ entries ∧ pyStartsWith n "---" = false ∧ missingFieldB d = true ∧
      loadHosts entries =
        .error (.hostError n ("Error parsing host '" ++ n ++ "': " ++ fieldErrorMsg n d))
  | [], h => by
    obtain ⟨p, hp, _⟩ := h
    exact absurd hp (List.not_mem_nil _)
  | (n0, d0) :: rest, h => by
    by_cases hs : pyStartsWith n0 "---" = true
    · have h' : ∃ p ∈ rest, pyStartsWith p.1 "---" = false ∧ missingFieldB p.2 = true := by
        obtain ⟨p, hp, hp1, hp2⟩ := h
        rcases List.mem_cons.mp hp with h1 | h1
        · exfalso
          rw [h1] at hp1
          rw [hp1] at hs
          exact Bool.false_ne_true hs
        · exact ⟨p, h1, hp1, hp2⟩
      obtain ⟨n, d, hmem, a, b, heq⟩ := loadHosts_validation h'
      refine ⟨n, d, List.mem_cons_of_mem _ hmem, a, b, ?_⟩
      rw [loadHosts, if_pos hs]
      exact heq
    · have hsf : pyStartsWith n0 "---" = false := by simpa using hs
      by_cases hm : missingFieldB d0 = true
      · refine ⟨n0, d0, List.mem_cons_self _ _, hsf, hm, ?_⟩
        rw [loadHosts, if_neg hs, mkInventoryHost_err hm]
      · have hmf : missingFieldB d0 = false := by simpa using hm
        have h' : ∃ p ∈ rest, pyStartsWith p.1 "---" = false ∧ missingFieldB p.2 = true := by
          obtain ⟨p, hp, hp1, hp2⟩ := h
          rcases List.mem_cons.mp hp with h1 | h1
          · exfalso
            rw [h1] at hp2
            exact hm hp2
          · exact ⟨p, h1, hp1, hp2⟩
        obtain ⟨n, d, hmem, a, b, heq⟩ := loadHosts_validation h'
        refine ⟨n, d, List.mem_cons_of_mem _ hmem, a, b, ?_⟩
        obtain ⟨h0, hmk⟩ := mkInventoryHost_ok_exists (n := n0) hmf
        rw [loadHosts, if_neg hs, hmk, heq]
        rfl

/-- Claim C6: loading fails with the file-not-found error when the file is
absent, with the invalid-YAML error when the content cannot be parsed,
with the not-a-dictionary error when the parsed top level is not a
mapping, and, whenever some non-skipped host record is missing a required
field, with a validation error that names an offending host and embeds the
message of its first missing field; in every case the result is an error,
so no inventory is produced. -/
theorem C6_inventory_load_errors :
    (∀ path : String, load_inventory path none =
      .error (.fileNotFound ("Inventory file not found: " ++ path))) ∧
    (∀ path msg : String, load_inventory path (some (.error msg)) =
      .error (.invalidYaml ("Invalid YAML in inventory file: " ++ msg))) ∧
    (∀ path : String, load_inventory path (some (.ok .nonDict)) =
      .error (.notDict "Inventory must be a dictionary")) ∧
    (∀ (path : String) (entries : List (String × List (String × String))),
      (∃ p ∈ entries, pyStartsWith p.1 "---" = false ∧ missingFieldB p.2 = true) →
      ∃ n d, (n, d) ∈ entries ∧ pyStartsWith n "---" = false ∧
        missingFieldB d = true ∧
        load_inventory path (some (.ok (.dict entries))) =
          .error (.hostError n
            ("Error parsing host '" ++ n ++ "': " ++ fieldErrorMsg n d))) := by
  refine ⟨fun _ => rfl, fun _ _ => rfl, fun _ => rfl, ?_⟩
  intro path entries h
  obtain ⟨n, d, hmem, a, b, heq⟩ := loadHosts_validation h
  exact ⟨n, d, hmem, a, b, heq⟩

/-- Witness for claim C6: a missing file, an unparseable file, a non-mapping
top level, and a record missing the hostname field. -/
theorem C6_inventory_load_errors_witness :
    (∃ p ∈ [("R1", [("vendor", "cisco")])],
      pyStartsWith p.1 "---" = false ∧ missingFieldB p.2 = true) ∧
    load_inventory "inv.yml" none =
      .error (.fileNotFound ("Inventory file not found: " ++ "inv.yml")) ∧
    load_inventory "inv.yml" (some (.error "bad syntax")) =
      .error (.invalidYaml ("Invalid YAML in inventory file: " ++ "bad syntax")) ∧
    load_inventory "inv.yml" (some (.ok .nonDict)) =
      .error (.notDict "Inventory must be a dictionary") ∧
    ∃ n d, (n, d) ∈ [("R1", [("vendor", "cisco")])] ∧
      pyStartsWith n "---" = false ∧ missingFieldB d = true ∧
      load_inventory "inv.yml" (some (.ok (.dict [("R1", [("vendor", "cisco")])]))) =
        .error (.hostError n
          ("Error parsing host '" ++ n ++ "': " ++ fieldErrorMsg n d)) :=
  ⟨by decide,
   C6_inventory_load_errors.1 "inv.yml",
   C6_inventory_load_errors.2.1 "inv.yml" "bad syntax",
   C6_inventory_load_errors.2.2.1 "inv.yml",
   C6_inventory_load_errors.2.2.2 "inv.yml" [("R1", [("vendor", "cisco")])] (by decide)⟩

/-- Claim C7: `get_hosts` with no filters returns the host list unchanged;
a non-empty protocol or vendor filter keeps exactly the hosts whose stored
field equals the lower-cased filter, the result is always a sublist of the
inventory (original order preserved), filters that agree up to case select
the same hosts, and every host produced by the loader stores its protocol
and vendor lower-cased, so the filter comparison is case-insensitive
equality of the raw values. -/
theorem C7_get_hosts_filtering (inv : List InventoryHost) :
    get_hosts inv none none = inv ∧
    (∀ p : String, p ≠ "" → get_hosts inv (some p) none =
      inv.filter (fun h => h.protocol = pyLower p)) ∧
    (∀ v : String, v ≠ "" → get_hosts inv none (some v) =
      inv.filter (fun h => h.vendor = pyLower v)) ∧
    (∀ p v : String, p ≠ "" → v ≠ "" → get_hosts inv (some p) (some v) =
      inv.filter (fun h => h.protocol = pyLower p && h.vendor = pyLower v)) ∧
    (∀ (p v : String) (h : InventoryHost), p ≠ "" → v ≠ "" →
      (h ∈ get_hosts inv (some p) (some v) ↔
        h ∈ inv ∧ h.protocol = pyLower p ∧ h.vendor = pyLower v)) ∧
    (∀ po vo : Option String, List.Sublist (get_hosts inv po vo) inv) ∧
    (∀ (p q : String) (vo : Option String), p ≠ "" → q ≠ "" →
      pyLower p = pyLower q → get_hosts inv (some p) vo = get_hosts inv (some q) vo) ∧
    (∀ (u w : String) (po : Option String), u ≠ "" → w ≠ "" →
      pyLower u = pyLower w → get_hosts inv po (some u) = get_hosts inv po (some w)) ∧
    (∀ (entries : List (String × List (String × String))) (hosts : List InventoryHost),
      loadHosts entries = .ok hosts → ∀ h ∈ hosts,
      (∃ rawP, h.protocol = pyLower rawP) ∧ (∃ rawV, h.vendor = pyLower rawV)) := by
  have h4 : ∀ p v : String, p ≠ "" → v ≠ "" → get_hosts inv (some p) (some v) =
      inv.filter (fun h => h.protocol = pyLower p && h.vendor = pyLower v) := by
    intro p v hp hv
    simp only [get_hosts, if_neg hp, if_neg hv]
    rw [List.filter_filter]
    refine List.filter_congr ?_
    intro a _
    exact Bool.and_comm _ _
  refine ⟨rfl, ?_, ?_, h4, ?_, get_hosts_sublist inv, ?_, ?_, ?_⟩
  · intro p hp
    simp only [get_hosts, if_neg hp]
  · intro v hv
    simp only [get_hosts, if_neg hv]
  · intro p v h0 hp hv
    rw [h4 p v hp hv]
    simp only [List.mem_filter, Bool.and_eq_true, decide_eq_true_eq]
  · intro p q vo hp hq hpq
    cases vo with
    | none => simp only [get_hosts, if_neg hp, if_neg hq, hpq]
    | some v =>
      by_cases hv : v = ""
      · simp only [get_hosts, if_neg hp, if_neg hq, if_pos hv, hpq]
      · simp only [get_hosts, if_neg hp, if_neg hq, if_neg hv, hpq]
  · intro u w po hu hw huw
    cases po with
    | none => simp only [get_hosts, if_neg hu, if_neg hw, huw]
    | some p =>
      by_cases hp : p = ""
      · simp only [get_hosts, if_pos hp, if_neg hu, if_neg hw, huw]
      · simp only [get_hosts, if_neg hp, if_neg hu, if_neg hw, huw]
  · intro entries hosts heq h0 hm
    obtain ⟨n, d, _, hmk⟩ := loadHosts_mem_shape heq h0 hm
    obtain ⟨_, hvend, hprot⟩ := mkInventoryHost_fields hmk
    exact ⟨⟨_, hprot⟩, ⟨_, hvend⟩⟩

/-- Witness for claim C7: filtering a two-host inventory by upper-cased
filter values selects by the lower-cased comparison. -/
theorem C7_get_hosts_filtering_witness :
    (("OSPF" : String) ≠ "" ∧ ("Cisco" : String) ≠ "") ∧
    get_hosts [hostB, hostA] (some "OSPF") (some "Cisco") =
      [hostB, hostA].filter
        (fun h => h.protocol = pyLower "OSPF" && h.vendor = pyLower "Cisco") :=
  ⟨⟨by decide, by decide⟩,
   (C7_get_hosts_filtering [hostB, hostA]).2.2.2.1 "OSPF" "Cisco"
     (by decide) (by decide)⟩
